import Mathlib

/-!
# Verification of the picture-metadata photo reorganizer

A shallow embedding of the date-resolution and timestamp-assignment engine of
the `picture-metadata` repository, together with theorems about it.

Conventions of the embedding:

* Go `time.Time` values are modelled as a count of seconds since
  `0001-01-01T00:00:00 UTC` (a `Nat`).  Go's zero `time.Time` is exactly
  January 1 of year 1, so `t.IsZero()` becomes `t = 0`, `t.Add(time.Second)`
  becomes `t + 1` and `a.After(b)` becomes `b < a`.
* Go strings are `String`/`List Char`; all inputs of interest are ASCII, where
  Go's byte-wise string order coincides with `Char` code-point order.
* The regular expressions of the source are embedded as explicit left-most
  scanners over `List Char`, one per pattern rule; every pattern of the source
  has fixed-width pieces (or a greedy `\s+` that is followed by a non-space
  token), so left-most-first regexp matching coincides with these scanners.
* File-system and EXIF reads are external collaborators; they enter the
  embedding as explicit parameters (a snapshot list of existing destination
  paths, a `String → Option Nat` embedded-timestamp oracle).
-/

/-! ## Character helpers -/

/-- `\d` of Go's regexp: an ASCII decimal digit. -/
def isDigitC (c : Char) : Bool := c.isDigit

/-- `\s` of Go's regexp (Perl class): space, tab, newline, form feed, carriage
return. -/
def isSpaceGo (c : Char) : Bool :=
  c = ' ' || c = '\t' || c = '\n' || c = '\r' || c.toNat = 12

/-- The whitespace trimmed by Go's `strings.TrimSpace`, restricted to ASCII
(`unicode.IsSpace` additionally trims `\v` and some non-ASCII code points). -/
def isSpaceUni (c : Char) : Bool := isSpaceGo c || c.toNat = 11

/-- A path separator as used by the source's `[/\\]` character classes. -/
def isSepChar (c : Char) : Bool := c = '/' || c = '\\'

/-- Decimal value accumulated by `strconv.Atoi` over digit characters. -/
def takeDigitsAux : Nat → Nat → List Char → Option (Nat × List Char)
  | 0, acc, cs => some (acc, cs)
  | _ + 1, _, [] => none
  | n + 1, acc, c :: cs =>
    if isDigitC c then takeDigitsAux n (acc * 10 + (c.toNat - 48)) cs else none

/-- Exactly `n` digits at the head of the input, as their decimal value plus
the rest of the input (`\d{n}` followed by `strconv.Atoi`). -/
def takeD (n : Nat) (cs : List Char) : Option (Nat × List Char) :=
  takeDigitsAux n 0 cs

/-- One given literal character at the head of the input. -/
def expectC (x : Char) : List Char → Option (List Char)
  | [] => none
  | c :: cs => if c = x then some cs else none

/-- Greedy `\s+`: at least one Go-whitespace character, consuming the maximal
run.  In every pattern of the source the token after `\s+` is a non-space
(digit or letter), so maximal munch equals the regexp's backtracking search. -/
def skipWs1 : List Char → Option (List Char)
  | [] => none
  | c :: cs => if isSpaceGo c then some (cs.dropWhile isSpaceGo) else none

/-- `(?:\D|$)`: end of input or a non-digit next character (`_` is a
non-digit, so the source's `(?:_|\D|$)` denotes the same test). -/
def endOrNonDigit : List Char → Bool
  | [] => true
  | c :: _ => !isDigitC c

/-- Decimal value of a digit sequence. -/
def digitsVal (r : List Char) : Nat :=
  r.foldl (fun a c => a * 10 + (c.toNat - 48)) 0

/-- Go's `strconv.Atoi` with the error ignored (`n, _ := strconv.Atoi(s)`):
the value, or `0` when the input is not a number (the optional sign accepted
by `Atoi` never occurs in the `%02d`-formatted inputs this is applied to). -/
def atoiZ (cs : List Char) : Nat :=
  if cs ≠ [] ∧ cs.all isDigitC then digitsVal cs else 0

/-- `fmt.Sprintf` `%0Nd`: decimal, left-padded with zeros to width `w`. -/
def padZeros (w n : Nat) : String :=
  String.mk (List.replicate (w - (toString n).length) '0') ++ toString n

/-! ## Go calendar arithmetic

`toSecs` is the day-count arithmetic of Go's `time.Date` for the proleptic
Gregorian calendar in UTC: out-of-range days and clock fields normalize into
the count exactly as in Go.  `civilFromDays` is the inverse used by
`time.Time.Year()`. -/

/-- A leap year of the proleptic Gregorian calendar. -/
def isLeapY (y : Nat) : Bool := y % 4 = 0 && (y % 100 ≠ 0 || y % 400 = 0)

/-- Leap years among `1 .. y-1`. -/
def leapsBefore (y : Nat) : Nat := (y - 1) / 4 - (y - 1) / 100 + (y - 1) / 400

/-- Days in the months before month `m` of a non-leap year. -/
def daysBeforeMonth (m : Nat) : Nat :=
  match m with
  | 1 => 0 | 2 => 31 | 3 => 59 | 4 => 90 | 5 => 120 | 6 => 151
  | 7 => 181 | 8 => 212 | 9 => 243 | 10 => 273 | 11 => 304 | _ => 334

/-- Days from `0001-01-01` to year `y`, month `m`, day `d` (day overflow such
as February 31 normalizes into the following month, as in Go). -/
def daysFromCivil (y m d : Nat) : Nat :=
  365 * (y - 1) + leapsBefore y + daysBeforeMonth m +
    (if 2 < m && isLeapY y then 1 else 0) + (d - 1)

/-- Seconds since `0001-01-01T00:00:00` (Go's zero `time.Time`). -/
def toSecs (y m d h mi s : Nat) : Nat :=
  daysFromCivil y m d * 86400 + h * 3600 + mi * 60 + s

/-- `(year, month, day)` of a day count since `0001-01-01` (Hinnant's
civil-from-days algorithm, the computation behind Go's `Time.Date()`). -/
def civilFromDays (z : Nat) : Nat × Nat × Nat :=
  let z' := z + 306
  let doe := z' % 146097
  let era := z' / 146097
  let yoe := (doe - doe / 1460 + doe / 36524 - doe / 146097) / 365
  let doy := doe - (365 * yoe + yoe / 4 - yoe / 100)
  let mp := (5 * doy + 2) / 153
  let dd := doy - (153 * mp + 2) / 5 + 1
  let mm := if mp < 10 then mp + 3 else mp - 9
  (yoe + era * 400 + (if mm ≤ 2 then 1 else 0), mm, dd)

/-- Go's `time.Time.Year()` on the seconds model. -/
def yearOf (t : Nat) : Nat := (civilFromDays (t / 86400)).1

/-- `time.Date(t.Year(), t.Month(), t.Day(), 0, 0, 0, 0, t.Location())`: the
midnight opening the calendar day that contains `t`.  The epoch `0` is itself
a midnight, so this is `t` floored to a multiple of 86400 seconds. -/
def midnightOf (t : Nat) : Nat := t / 86400 * 86400

/-! ## The data model: `DateInfo` (date_parser / exiftool source) -/

/-- `DateInfo` of the source: date information extracted from a filename.
`Time` is the `HH:MM:SS` string, empty when no time of day was parsed. -/
structure DateInfo where
  Year : Nat
  Month : Nat
  Day : Nat
  Time : String
  Original : String
  deriving DecidableEq, Repr

/-- `strings.Split` on a one-character separator. -/
def splitChar (sep : Char) : List Char → List (List Char)
  | [] => [[]]
  | c :: rest =>
    match splitChar sep rest with
    | [] => [[]]
    | r :: rs => if c = sep then [] :: r :: rs else (c :: r) :: rs

/-- The `HH:MM:SS` split of `DateInfo.ToTime`: `strings.Split(d.Time, ":")`
followed by the three ignored-error `strconv.Atoi` calls; `none` when the
split does not have exactly three parts (in particular for the empty string,
which Go short-circuits before splitting). -/
def parseClock (t : String) : Option (Nat × Nat × Nat) :=
  match splitChar ':' t.data with
  | [h, m, s] => some (atoiZ h, atoiZ m, atoiZ s)
  | _ => none

/-- `DateInfo.ToTime` of the source: the parsed clock time when `Time` splits
as `HH:MM:SS`, noon (the midday placeholder) otherwise. -/
def DateInfo.ToTime (d : DateInfo) : Nat :=
  match parseClock d.Time with
  | some (h, mi, s) => toSecs d.Year d.Month d.Day h mi s
  | none => toSecs d.Year d.Month d.Day 12 0 0

/-! ## The pattern rules of `ParseDateFromFilename` (exiftool source, 261-392)

One scanner per entry of the source's `patterns` slice, in the source's order.
Scanners prefixed `hit` try the pattern at the head of the input; `scanL`
turns such a test into the left-most unanchored search performed by
`regexp.FindStringSubmatch`. -/

/-- Left-most search: try the head test at every start position, earliest
position first, as `FindStringSubmatch` does for an unanchored pattern. -/
def scanL (m : List Char → Option DateInfo) : List Char → Option DateInfo
  | [] => m []
  | c :: cs =>
    match m (c :: cs) with
    | some r => some r
    | none => scanL m cs

/-- Rule 1, `(\d{4})-(\d{2})-(\d{2})\s+(\d{2})\.(\d{2})\.(\d{2})`:
date plus clock time, `Time` rendered `%02d:%02d:%02d`. -/
def hitDateTime (base : String) (cs : List Char) : Option DateInfo := do
  let (y, r1) ← takeD 4 cs
  let r2 ← expectC '-' r1
  let (mo, r3) ← takeD 2 r2
  let r4 ← expectC '-' r3
  let (dy, r5) ← takeD 2 r4
  let r6 ← skipWs1 r5
  let (h, r7) ← takeD 2 r6
  let r8 ← expectC '.' r7
  let (mi, r9) ← takeD 2 r8
  let r10 ← expectC '.' r9
  let (s, _) ← takeD 2 r10
  some { Year := y, Month := mo, Day := dy,
         Time := padZeros 2 h ++ (":") ++ padZeros 2 mi ++ (":") ++ padZeros 2 s,
         Original := base }

/-- Rule 2, `(\d{4})-(\d{2})-(\d{2})`. -/
def hitDashDate (base : String) (cs : List Char) : Option DateInfo := do
  let (y, r1) ← takeD 4 cs
  let r2 ← expectC '-' r1
  let (mo, r3) ← takeD 2 r2
  let r4 ← expectC '-' r3
  let (dy, _) ← takeD 2 r4
  some { Year := y, Month := mo, Day := dy, Time := "", Original := base }

/-- Rule 3, `(\d{4})_(\d{2})_(\d{2})`. -/
def hitUnderDate (base : String) (cs : List Char) : Option DateInfo := do
  let (y, r1) ← takeD 4 cs
  let r2 ← expectC '_' r1
  let (mo, r3) ← takeD 2 r2
  let r4 ← expectC '_' r3
  let (dy, _) ← takeD 2 r4
  some { Year := y, Month := mo, Day := dy, Time := "", Original := base }

/-- Rule 4, `^(\d{4})(\d{2})(\d{2})(?:\D|$)` (anchored). -/
def hitYYYYMMDD (base : String) (cs : List Char) : Option DateInfo := do
  let (y, r1) ← takeD 4 cs
  let (mo, r2) ← takeD 2 r1
  let (dy, r3) ← takeD 2 r2
  if endOrNonDigit r3 then
    some { Year := y, Month := mo, Day := dy, Time := "", Original := base }
  else none

/-- Rule 5, `(\d{4})_(\d{2})(?:_|\D|$)`: year and month, day defaults to 1. -/
def hitYearUnderMonth (base : String) (cs : List Char) : Option DateInfo := do
  let (y, r1) ← takeD 4 cs
  let r2 ← expectC '_' r1
  let (mo, r3) ← takeD 2 r2
  if endOrNonDigit r3 then
    some { Year := y, Month := mo, Day := 1, Time := "", Original := base }
  else none

/-- The century cutover heuristic of rules 6 and 7: a two-digit year above 50
is in the 1900s, any other in the 2000s. -/
def inferCentury (yy : Nat) : Nat := if 50 < yy then 1900 + yy else 2000 + yy

/-- Rule 6, `^(\d{2})(\d{2})(\d{2})(?:\D|$)` (anchored), century inferred. -/
def hitYYMMDD (base : String) (cs : List Char) : Option DateInfo := do
  let (yy, r1) ← takeD 2 cs
  let (mo, r2) ← takeD 2 r1
  let (dy, r3) ← takeD 2 r2
  if endOrNonDigit r3 then
    some { Year := inferCentury yy, Month := mo, Day := dy, Time := "", Original := base }
  else none

/-- Rule 7, `^(\d{2})(\d{2})(?:\D|$)` (anchored), century inferred, day 1. -/
def hitYYMM (base : String) (cs : List Char) : Option DateInfo := do
  let (yy, r1) ← takeD 2 cs
  let (mo, r2) ← takeD 2 r1
  if endOrNonDigit r2 then
    some { Year := inferCentury yy, Month := mo, Day := 1, Time := "", Original := base }
  else none

/-- Rule 8, `[/\\](\d{4})(?:_|/|\\)`: a bare year as a path segment. -/
def hitSepYearSep (base : String) (cs : List Char) : Option DateInfo :=
  match cs with
  | [] => none
  | c :: rest =>
    if isSepChar c then
      match takeD 4 rest with
      | some (y, r1) =>
        match r1 with
        | d :: _ =>
          if d = '_' || isSepChar d then
            some { Year := y, Month := 1, Day := 1, Time := "", Original := base }
          else none
        | [] => none
      | none => none
    else none

/-- Rule 9, `(\d{4})\s+and\s+before`. -/
def hitYearAndBefore (base : String) (cs : List Char) : Option DateInfo := do
  let (y, r1) ← takeD 4 cs
  let r2 ← skipWs1 r1
  let r3 ← expectC 'a' r2
  let r4 ← expectC 'n' r3
  let r5 ← expectC 'd' r4
  let r6 ← skipWs1 r5
  let r7 ← expectC 'b' r6
  let r8 ← expectC 'e' r7
  let r9 ← expectC 'f' r8
  let r10 ← expectC 'o' r9
  let r11 ← expectC 'r' r10
  let _ ← expectC 'e' r11
  some { Year := y, Month := 1, Day := 1, Time := "", Original := base }

/-- The `(\d{4})[A-Za-z_]` tail of rule 10. -/
def hitYearLetter (base : String) (cs : List Char) : Option DateInfo := do
  let (y, r1) ← takeD 4 cs
  match r1 with
  | c :: _ =>
    if c.isAlpha || c = '_' then
      some { Year := y, Month := 1, Day := 1, Time := "", Original := base }
    else none
  | [] => none

/-- The `[/\\]` branch of rule 10, searched left to right. -/
def scanSepYearLetter (base : String) : List Char → Option DateInfo
  | [] => none
  | c :: rest =>
    if isSepChar c then
      match hitYearLetter base rest with
      | some d => some d
      | none => scanSepYearLetter base rest
    else scanSepYearLetter base rest

/-- Rule 10, `(?:^|[/\\])(\d{4})[A-Za-z_]`: a year glued to a letter at the
start of the string or of a path segment; the `^` alternative is tried
first, as the regexp engine does at position 0. -/
def hitYearAtSegStart (base : String) (cs : List Char) : Option DateInfo :=
  match hitYearLetter base cs with
  | some d => some d
  | none => scanSepYearLetter base cs

/-- The source's `patterns` slice, in its priority order. -/
def patternRules (base : String) : List (List Char → Option DateInfo) :=
  [ scanL (hitDateTime base), scanL (hitDashDate base), scanL (hitUnderDate base),
    hitYYYYMMDD base, scanL (hitYearUnderMonth base), hitYYMMDD base, hitYYMM base,
    scanL (hitSepYearSep base), scanL (hitYearAndBefore base), hitYearAtSegStart base ]

/-- The validation block applied to every match (exiftool source, 406-417):
year in `[1800, 2100]`, month in `[1, 12]`, day in `[1, 31]`. -/
def validDate (d : DateInfo) : Bool :=
  decide (1800 ≤ d.Year) && decide (d.Year ≤ 2100) &&
  decide (1 ≤ d.Month) && decide (d.Month ≤ 12) &&
  decide (1 ≤ d.Day) && decide (d.Day ≤ 31)

/-- The inner loop over `patterns`: first rule whose left-most match passes
validation wins; an invalid match discards that rule (`continue`) and the
cascade moves to the next rule. -/
def tryPatterns : List (List Char → Option DateInfo) → List Char → Option DateInfo
  | [], _ => none
  | p :: ps, s =>
    match p s with
    | some info => if validDate info then some info else tryPatterns ps s
    | none => tryPatterns ps s

/-- The outer loop over `searchStrings`: a later search string is consulted
only when no rule produced a valid match on an earlier one. -/
def searchAll (pats : List (List Char → Option DateInfo)) : List (List Char) → Option DateInfo
  | [] => none
  | s :: rest =>
    match tryPatterns pats s with
    | some info => some info
    | none => searchAll pats rest

/-- `filepath.Base` for a path that does not end in a separator: everything
after the last `/`. -/
def baseNameL (cs : List Char) : List Char :=
  (cs.reverse.takeWhile (fun c => c ≠ '/')).reverse

/-- `filepath.Ext`: the suffix starting at the final dot, empty without one
(applied by the source to strings without separators after the dot). -/
def extOfL (cs : List Char) : List Char :=
  if cs.contains '.' then '.' :: (cs.reverse.takeWhile (fun c => c ≠ '.')).reverse
  else []

/-- `strings.TrimSuffix`. -/
def trimSuffixL (cs suf : List Char) : List Char :=
  if suf.isSuffixOf cs then cs.take (cs.length - suf.length) else cs

/-- The bare filename without extension, the first search string of
`ParseDateFromFilename`. -/
def nameNoExtL (filename : String) : List Char :=
  let base := baseNameL filename.data
  trimSuffixL base (extOfL base)

/-- `ParseDateFromFilename` (exiftool source, 261-425): try every rule against
the bare filename without extension, then against the full path; `none` is
the source's `could not parse date` error. -/
def ParseDateFromFilename (filename : String) : Option DateInfo :=
  let base := String.mk (baseNameL filename.data)
  searchAll (patternRules base) [nameNoExtL filename, filename.data]

/-! ## Timestamp reconciliation (`DetermineCorrectTimestamp`) -/

/-- `DetermineCorrectTimestamp` of the source.  Reading the embedded capture
timestamp is file I/O performed by a collaborator (`ReadExifData` for images,
`ReadTimestampWithExiftool` for videos); here it enters as the `embedded`
argument, `none` when no (non-zero) timestamp is readable.  The decision of
the source: no embedded timestamp, or an embedded year different from the
parsed year, yields the parsed date and `false`; a matching year returns the
embedded timestamp unchanged and `true`. -/
def DetermineCorrectTimestamp (embedded : Option Nat) (parsedDate : DateInfo) :
    Nat × Bool :=
  match embedded with
  | none => (parsedDate.ToTime, false)
  | some originalTimestamp =>
    if yearOf originalTimestamp = parsedDate.Year then (originalTimestamp, true)
    else (parsedDate.ToTime, false)

/-! ## Natural sort (`naturalLess`, `naturalSort`) -/

/-- Accumulating pass of `splitRuns`: `cur` is the current run, reversed,
`curCls` whether it is a digit run. -/
def splitRunsAux (cur : List Char) (curCls : Bool) : List Char → List (List Char)
  | [] => [cur.reverse]
  | c :: cs =>
    if isDigitC c = curCls then splitRunsAux (c :: cur) curCls cs
    else cur.reverse :: splitRunsAux [c] (isDigitC c) cs

/-- The split performed by `regexp.MustCompile((\d+|\D+)).FindAllString`:
maximal alternating runs of digits and non-digits. -/
def splitRuns : List Char → List (List Char)
  | [] => []
  | c :: cs => splitRunsAux [c] (isDigitC c) cs

/-- `strconv.Atoi` succeeds on a run exactly when the run is all digits
(runs are non-empty and homogeneous; int64 overflow of runs longer than 18
digits is not modelled). -/
def isNumRun (r : List Char) : Bool := r.all isDigitC

/-- Go's byte-wise `<` on strings (code-point order; identical on ASCII). -/
def lexLt : List Char → List Char → Bool
  | [], [] => false
  | [], _ :: _ => true
  | _ :: _, [] => false
  | a :: as_, b :: bs => if a = b then lexLt as_ bs else decide (a < b)

/-- The comparison loop of `naturalLess`: numeric runs compare by value,
other pairs byte-wise, equal pairs fall through; at the end the shorter
run list sorts first. -/
def cmpRuns : List (List Char) → List (List Char) → Bool
  | [], bs => !bs.isEmpty
  | _ :: _, [] => false
  | a :: as_, b :: bs =>
    if isNumRun a && isNumRun b then
      if digitsVal a ≠ digitsVal b then decide (digitsVal a < digitsVal b)
      else cmpRuns as_ bs
    else
      if a ≠ b then lexLt a b else cmpRuns as_ bs

/-- `naturalLess` of the source. -/
def naturalLess (a b : String) : Bool :=
  cmpRuns (splitRuns a.data) (splitRuns b.data)

/-- One insertion step of sorting by `naturalLess`. -/
def insertNatural (x : String) : List String → List String
  | [] => [x]
  | y :: ys => if naturalLess x y then x :: y :: ys else y :: insertNatural x ys

/-- `naturalSort` of the source (`sort.Slice` with `naturalLess`), realized
as an insertion sort: `sort.Slice` is unstable but `naturalLess` orders, so
any sort agrees up to ties of `naturalLess`-equivalent strings. -/
def naturalSort (paths : List String) : List String :=
  paths.foldr insertNatural []

/-! ## Sequential timestamp pre-allocation (`preallocateTimestamps`) -/

/-- One entry of `p.timestampAssignments` together with the `isFromEXIF`
verdict the pre-allocation pass computed for the path. -/
structure Assignment where
  path : String
  ts : Nat
  fromEXIF : Bool
  deriving DecidableEq, Repr

/-- `preallocateTimestamps` of the source, over the file paths in order, with
the running `lastTimestamp` explicit (the source starts it at the zero time,
`0`).  `exif` is the embedded-timestamp collaborator; the source's remote
branch (temporary download, with parse-date fallback on download failure)
produces the same `(timestamp, isFromEXIF)` pairs and is subsumed by it.
A file whose date does not parse is skipped; an authoritative timestamp is
kept as is and advances `lastTimestamp` only forward; otherwise the file
gets midnight of its parsed day when `lastTimestamp` is still zero and
`lastTimestamp + 1` second otherwise, and `lastTimestamp` follows it. -/
def preallocateTimestamps (exif : String → Option Nat) :
    List String → Nat → List Assignment
  | [], _ => []
  | p :: ps, last =>
    match ParseDateFromFilename p with
    | none => preallocateTimestamps exif ps last
    | some d =>
      if (DetermineCorrectTimestamp (exif p) d).2 then
        { path := p, ts := (DetermineCorrectTimestamp (exif p) d).1, fromEXIF := true } ::
          preallocateTimestamps exif ps
            (if last < (DetermineCorrectTimestamp (exif p) d).1
             then (DetermineCorrectTimestamp (exif p) d).1 else last)
      else
        { path := p, ts := if last = 0 then midnightOf d.ToTime else last + 1,
          fromEXIF := false } ::
          preallocateTimestamps exif ps
            (if last = 0 then midnightOf d.ToTime else last + 1)

/-- Go map indexing `p.timestampAssignments[filePath]` over the snapshot of
assignments, as an association-list lookup. -/
def lookupAssign : List (String × Nat) → String → Option Nat
  | [], _ => none
  | (k, v) :: rest, p => if k = p then some v else lookupAssign rest p

/-- `GetSequentialTimestamp` of the source: the pre-allocated timestamp when
the path has one, the caller's base timestamp otherwise. -/
def GetSequentialTimestamp (assignments : List (String × Nat))
    (filePath : String) (baseTimestamp : Nat) : Nat :=
  match lookupAssign assignments filePath with
  | some timestamp => timestamp
  | none => baseTimestamp

/-! ## Filename synthesis (`StandardizedFilename`, `GetDirectoryPath`) -/

/-- `[-_]?`: one optional dash or underscore. -/
def dropOptDashUnder : List Char → List Char
  | [] => []
  | c :: rest => if c = '-' || c = '_' then rest else c :: rest

/-- `_?`: one optional underscore. -/
def dropOptUnder : List Char → List Char
  | [] => []
  | c :: rest => if c = '_' then rest else c :: rest

/-- `\d{0,2}`, greedy: up to two leading digits.  Every piece of the prefix
patterns below is optional and nothing follows them, so greedy maximal munch
piece by piece is the regexp's left-most-first match. -/
def dropUpTo2Digits : List Char → List Char
  | [] => []
  | [a] => if isDigitC a then [] else [a]
  | a :: b :: rest =>
    if isDigitC a then (if isDigitC b then rest else b :: rest) else a :: b :: rest

/-- `ReplaceAllString` of the anchored `^\d{4}[-_]?\d{0,2}[-_]?\d{0,2}_?`
with the empty string: strip that prefix when the four digits are there. -/
def stripLeadDate1 (cs : List Char) : List Char :=
  match takeD 4 cs with
  | none => cs
  | some (_, r1) =>
    dropOptUnder (dropUpTo2Digits (dropOptDashUnder (dropUpTo2Digits (dropOptDashUnder r1))))

/-- `ReplaceAllString` of the anchored `^\d{6}_?` with the empty string. -/
def stripLeadDate2 (cs : List Char) : List Char :=
  match takeD 6 cs with
  | none => cs
  | some (_, r) => dropOptUnder r

/-- `strings.TrimSpace` (ASCII whitespace). -/
def trimSpacesL (cs : List Char) : List Char :=
  ((cs.dropWhile isSpaceUni).reverse.dropWhile isSpaceUni).reverse

/-- The description cleanup of `StandardizedFilename` (exiftool source,
449-453): strip leading date patterns, trim space, spaces to underscores. -/
def cleanDescription (description : String) : String :=
  String.mk
    ((trimSpacesL (stripLeadDate2 (stripLeadDate1 description.data))).map
      (fun c => if c = ' ' then '_' else c))

/-- `DateInfo.StandardizedFilename` of the source (exiftool version):
`YYYY-MM-DD[_HHMMSS]_description.ext`, the time omitted when empty or equal
to the `12:00:00` midday placeholder; an empty cleaned description becomes
`photo`. -/
def DateInfo.StandardizedFilename (d : DateInfo) (description ext : String) : String :=
  let desc0 := cleanDescription description
  let desc := if desc0 = "" then ("photo") else desc0
  if d.Time ≠ "" ∧ d.Time ≠ ("12:00:00") then
    padZeros 4 d.Year ++ ("-") ++ padZeros 2 d.Month ++ ("-") ++ padZeros 2 d.Day ++
      ("_") ++ String.mk (d.Time.data.filter (fun c => c ≠ ':')) ++ ("_") ++ desc ++ ext
  else
    padZeros 4 d.Year ++ ("-") ++ padZeros 2 d.Month ++ ("-") ++ padZeros 2 d.Day ++
      ("_") ++ desc ++ ext

/-- `DateInfo.GetDirectoryPath` of the source: `YYYY/YYYY-MM`. -/
def DateInfo.GetDirectoryPath (d : DateInfo) : String :=
  padZeros 4 d.Year ++ ("/") ++ padZeros 4 d.Year ++ ("-") ++ padZeros 2 d.Month

/-! ## Per-file processing (`processPhoto`), the slice the claims need

`processPhoto` of the source, local mode, with dry-run, skip-existing and
fix-metadata off, exiftool unavailable, and the file directly under the
source root (so `ExtractDirectoryContext` returns the empty string and the
description is the bare name).  The destination file system enters as the
snapshot `existing` consulted by the `os.Stat` collision loop. -/

/-- The outcome of one `processPhoto` call: the path written, the statistics
deltas, and whether an error was returned to the worker loop. -/
structure ProcOutcome where
  dest : String
  skippedDelta : Nat
  processedDelta : Nat
  retErr : Bool
  deriving DecidableEq, Repr

/-- The collision loop of the unknown bucket: starting from `cur` and
`counter`, first path not already present wins.  The source's `for` loop has
no fuel; `existing.length + 1` candidates always suffice since candidates are
pairwise distinct. -/
def findFreeAux (existing : List String) (cand : Nat → String) :
    Nat → String → Nat → String
  | 0, cur, _ => cur
  | fuel + 1, cur, counter =>
    if cur ∈ existing then findFreeAux existing cand fuel (cand counter) (counter + 1)
    else cur

/-- The unparseable-date branch of `processPhoto` (source lines 438-457):
destination under `destDir/unknown` keeping the base name, with an
incrementing `_N` suffix before the extension while the name is taken. -/
def routeUnparseable (existing : List String) (destDir filePath : String) : String :=
  let base := String.mk (baseNameL filePath.data)
  let ext := String.mk (extOfL base.data)
  let nameNE := String.mk (trimSuffixL base.data ext.data)
  findFreeAux existing
    (fun k => destDir ++ ("/unknown/") ++ nameNE ++ ("_") ++ toString k ++ ext)
    (existing.length + 1) (destDir ++ ("/unknown/") ++ base) 1

/-- `processPhoto` under the configuration described above.  A file whose
date does not parse goes to the unknown bucket, counts as skipped, and the
function returns `nil`; otherwise the file is copied to
`destDir/YYYY/YYYY-MM/standardizedFilename` and counts as processed. -/
def processPhotoM (existing : List String) (destDir filePath : String) : ProcOutcome :=
  match ParseDateFromFilename filePath with
  | none =>
    { dest := routeUnparseable existing destDir filePath,
      skippedDelta := 1, processedDelta := 0, retErr := false }
  | some d =>
    let base := String.mk (baseNameL filePath.data)
    let ext := String.mk (extOfL filePath.data)
    let desc := String.mk (trimSuffixL base.data ext.data)
    { dest := destDir ++ ("/") ++ d.GetDirectoryPath ++ ("/") ++
        d.StandardizedFilename desc ext,
      skippedDelta := 0, processedDelta := 1, retErr := false }

/-- The destination path relative to the destination root computed by
`processPhoto` for a parseable file directly under the source root
(source lines 468-481). -/
def destRelPath (filePath : String) : Option String :=
  (ParseDateFromFilename filePath).map (fun d =>
    let base := String.mk (baseNameL filePath.data)
    let ext := String.mk (extOfL filePath.data)
    let desc := String.mk (trimSuffixL base.data ext.data)
    d.GetDirectoryPath ++ ("/") ++ d.StandardizedFilename desc ext)

/-! ## The statistics counters under concurrent workers

`walkLocalDirectory` starts `p.config.Workers` goroutines, each running
`processPhoto`, which mutates `p.stats.SkippedFiles` (line 464),
`p.stats.ProcessedFiles` (lines 520, 578), `p.stats.MovedFiles` (line 567)
and `p.stats.UpdatedMetadata` (lines 516, 574) with a bare `++`, without
taking `p.statsMutex` (only the `ErrorFiles` increment in the results loop
is under the mutex).  A `++` on a shared integer is a load followed by a
store; the model below gives two workers exactly those two steps and runs
them under an explicit interleaving. -/

/-- Two workers about to increment the same shared counter: the shared cell,
and each worker's loaded register and program counter (0 = about to load,
1 = about to store, 2 = done). -/
structure RaceState where
  counter : Nat
  reg1 : Nat
  pc1 : Nat
  reg2 : Nat
  pc2 : Nat
  deriving DecidableEq, Repr

/-- One machine step of worker 1 (`w = true`) or worker 2 (`w = false`)
executing the unsynchronized `counter++`. -/
def incStep (w : Bool) (s : RaceState) : RaceState :=
  if w then
    match s.pc1 with
    | 0 => { s with reg1 := s.counter, pc1 := 1 }
    | 1 => { s with counter := s.reg1 + 1, pc1 := 2 }
    | _ => s
  else
    match s.pc2 with
    | 0 => { s with reg2 := s.counter, pc2 := 1 }
    | 1 => { s with counter := s.reg2 + 1, pc2 := 2 }
    | _ => s

/-- Run a schedule (a list of which worker steps next). -/
def runSched (sched : List Bool) (s : RaceState) : RaceState :=
  sched.foldl (fun st w => incStep w st) s

/-- Both workers at the start, counter `0`. -/
def raceInit : RaceState := { counter := 0, reg1 := 0, pc1 := 0, reg2 := 0, pc2 := 0 }

/-! ## Support lemmas -/

/-- Whatever `tryPatterns` returns passed the validation block. -/
theorem tryPatterns_valid (ps : List (List Char → Option DateInfo)) (s : List Char)
    (d : DateInfo) (h : tryPatterns ps s = some d) : validDate d = true := by
  induction ps with
  | nil => simp [tryPatterns] at h
  | cons p ps ih =>
    simp only [tryPatterns] at h
    cases hp : p s with
    | none => rw [hp] at h; exact ih h
    | some info =>
      rw [hp] at h
      cases hv : validDate info with
      | true => simp only [hv, if_true] at h; cases h; exact hv
      | false => simp only [hv, Bool.false_eq_true, if_false] at h; exact ih h

/-- Whatever `searchAll` returns passed the validation block. -/
theorem searchAll_valid (pats : List (List Char → Option DateInfo))
    (l : List (List Char)) (d : DateInfo) (h : searchAll pats l = some d) :
    validDate d = true := by
  induction l with
  | nil => simp [searchAll] at h
  | cons s rest ih =>
    simp only [searchAll] at h
    cases ht : tryPatterns pats s with
    | none => rw [ht] at h; exact ih h
    | some info => rw [ht] at h; cases h; exact tryPatterns_valid _ _ _ ht

/-- A parsed date passed the validation block. -/
theorem parse_valid (f : String) (d : DateInfo)
    (h : ParseDateFromFilename f = some d) : validDate d = true := by
  unfold ParseDateFromFilename at h
  exact searchAll_valid _ _ _ h

/-- The validation block, as arithmetic bounds. -/
theorem validDate_bounds {d : DateInfo} (h : validDate d = true) :
    1800 ≤ d.Year ∧ d.Year ≤ 2100 ∧ 1 ≤ d.Month ∧ d.Month ≤ 12 ∧
      1 ≤ d.Day ∧ d.Day ≤ 31 := by
  simp only [validDate, Bool.and_eq_true, decide_eq_true_eq] at h
  omega

/-- A date of year 1800 or later sits at least one full day after the zero
time. -/
theorem daysFromCivil_ge_one (y m dd : Nat) (hy : 1800 ≤ y) :
    1 ≤ daysFromCivil y m dd := by
  unfold daysFromCivil
  have : 365 * 1799 ≤ 365 * (y - 1) := Nat.mul_le_mul_left 365 (by omega)
  omega

/-- Seconds bound for such a date. -/
theorem toSecs_ge_day (y m dd h mi s : Nat) (hy : 1800 ≤ y) :
    86400 ≤ toSecs y m dd h mi s := by
  have h1 := daysFromCivil_ge_one y m dd hy
  unfold toSecs
  have : 1 * 86400 ≤ daysFromCivil y m dd * 86400 := Nat.mul_le_mul_right 86400 h1
  omega

/-- `ToTime` of a validated date is at least one day after the zero time. -/
theorem toTime_ge_day (d : DateInfo) (hy : 1800 ≤ d.Year) : 86400 ≤ d.ToTime := by
  unfold DateInfo.ToTime
  cases hpc : parseClock d.Time with
  | none => exact toSecs_ge_day _ _ _ _ _ _ hy
  | some t =>
    obtain ⟨h, mi, s⟩ := t
    exact toSecs_ge_day _ _ _ _ _ _ hy

/-- The midnight of a day at least one day after the zero time is not the
zero time. -/
theorem midnightOf_pos (t : Nat) (h : 86400 ≤ t) : 0 < midnightOf t := by
  unfold midnightOf
  omega

/-- The synthetic timestamp a pre-allocation step would assign is positive
and strictly above the incoming `lastTimestamp`. -/
theorem syntheticStep_gt (last : Nat) (d : DateInfo) (hy : 1800 ≤ d.Year) :
    last < (if last = 0 then midnightOf d.ToTime else last + 1) := by
  by_cases hl : last = 0
  · rw [if_pos hl, hl]
    exact midnightOf_pos _ (toTime_ge_day d hy)
  · rw [if_neg hl]
    omega

/-- Every non-authoritative assignment produced by the pass is strictly above
the `lastTimestamp` the pass started from. -/
theorem prealloc_lt_of_mem (exif : String → Option Nat) :
    ∀ (ps : List String) (last : Nat) (a : Assignment),
      a ∈ preallocateTimestamps exif ps last → a.fromEXIF = false → last < a.ts := by
  intro ps
  induction ps with
  | nil =>
    intro last a ha
    simp [preallocateTimestamps] at ha
  | cons p ps ih =>
    intro last a ha hfe
    simp only [preallocateTimestamps] at ha
    cases hp : ParseDateFromFilename p with
    | none =>
      rw [hp] at ha
      exact ih last a ha hfe
    | some d =>
      have hy : 1800 ≤ d.Year := (validDate_bounds (parse_valid _ _ hp)).1
      rw [hp] at ha
      simp only at ha
      split at ha
      · rcases List.mem_cons.mp ha with rfl | hmem
        · simp at hfe
        · have := ih _ a hmem hfe
          split at this <;> omega
      · rcases List.mem_cons.mp ha with rfl | hmem
        · exact syntheticStep_gt last d hy
        · have h1 := ih _ a hmem hfe
          have h2 := syntheticStep_gt last d hy
          omega

/-- Pairwise monotonicity of the pass output over any starting
`lastTimestamp`. -/
theorem prealloc_pairwise (exif : String → Option Nat) :
    ∀ (ps : List String) (last : Nat),
      (preallocateTimestamps exif ps last).Pairwise
        (fun a b => a.fromEXIF = false → b.fromEXIF = false → a.ts < b.ts) := by
  intro ps
  induction ps with
  | nil => intro last; simp [preallocateTimestamps]
  | cons p ps ih =>
    intro last
    simp only [preallocateTimestamps]
    cases hp : ParseDateFromFilename p with
    | none => exact ih last
    | some d =>
      simp only
      split
      · refine List.Pairwise.cons ?_ (ih _)
        intro b hb h1 h2
        simp at h1
      · refine List.Pairwise.cons ?_ (ih _)
        intro b hb h1 h2
        exact prealloc_lt_of_mem exif ps _ b hb h2

/-! ## Claim theorems -/

/-- C1: after sorting the input paths in natural order and running the
timestamp pre-allocation pass, any two output entries in order whose
timestamps are both non-authoritative (synthetic) have strictly increasing
timestamps; authoritative (EXIF) entries are exempt from the ordering. -/
theorem preallocateTimestamps_synthetic_strictMono
    (exif : String → Option Nat) (paths : List String) :
    (preallocateTimestamps exif (naturalSort paths) 0).Pairwise
      (fun a b => a.fromEXIF = false → b.fromEXIF = false → a.ts < b.ts) :=
  prealloc_pairwise exif (naturalSort paths) 0

/-- C2: the synthetic allocation step.  When a file's timestamp is not
authoritative: with `lastTimestamp` still zero the file receives midnight of
its parsed date (for a date without clock time, `toSecs Y M D 0 0 0`), with
`lastTimestamp` non-zero it receives `lastTimestamp + 1` second, and in both
cases the pass continues with `lastTimestamp` set to the new value; for
`2024_01_a.jpg, 2024_01_b.jpg, 2024_01_c.jpg` with no embedded timestamps the
assigned values are `2024-01-01T00:00:00` plus zero, one, two seconds. -/
theorem preallocateTimestamps_step :
    (∀ (exif : String → Option Nat) (p : String) (ps : List String) (d : DateInfo),
        ParseDateFromFilename p = some d →
        (DetermineCorrectTimestamp (exif p) d).2 = false →
        preallocateTimestamps exif (p :: ps) 0 =
          { path := p, ts := midnightOf d.ToTime, fromEXIF := false } ::
            preallocateTimestamps exif ps (midnightOf d.ToTime)) ∧
    (∀ (exif : String → Option Nat) (p : String) (ps : List String) (d : DateInfo)
        (last : Nat),
        ParseDateFromFilename p = some d →
        (DetermineCorrectTimestamp (exif p) d).2 = false → last ≠ 0 →
        preallocateTimestamps exif (p :: ps) last =
          { path := p, ts := last + 1, fromEXIF := false } ::
            preallocateTimestamps exif ps (last + 1)) ∧
    (∀ (d : DateInfo), d.Time = "" →
        midnightOf d.ToTime = toSecs d.Year d.Month d.Day 0 0 0) ∧
    preallocateTimestamps (fun _ => none)
        (naturalSort [("2024_01_a.jpg"), ("2024_01_b.jpg"), ("2024_01_c.jpg")]) 0 =
      [ { path := ("2024_01_a.jpg"), ts := toSecs 2024 1 1 0 0 0, fromEXIF := false },
        { path := ("2024_01_b.jpg"), ts := toSecs 2024 1 1 0 0 0 + 1, fromEXIF := false },
        { path := ("2024_01_c.jpg"), ts := toSecs 2024 1 1 0 0 0 + 2, fromEXIF := false } ] := by
  refine ⟨?_, ?_, ?_, ?_⟩
  · intro exif p ps d hp hE
    simp [preallocateTimestamps, hp, hE]
  · intro exif p ps d last hp hE hl
    simp [preallocateTimestamps, hp, hE, hl]
  · intro d hT
    unfold DateInfo.ToTime
    rw [hT]
    simp only [show parseClock ("") = none from rfl]
    unfold midnightOf toSecs
    omega
  · rfl

/-- C3: the reconciliation policy of `DetermineCorrectTimestamp`: no readable
embedded timestamp yields the parsed date and `false`; an embedded timestamp
whose calendar year equals the parsed year is returned unchanged with `true`;
a year mismatch yields the parsed date and `false`.  Concretely: embedded
`2019-06-05T14:22:10` against parsed year 2019 is kept; embedded epoch
`1970-01-01` against parsed year 1998 is overridden. -/
theorem determineCorrectTimestamp_policy :
    (∀ (parsed : DateInfo),
        DetermineCorrectTimestamp none parsed = (parsed.ToTime, false)) ∧
    (∀ (t : Nat) (parsed : DateInfo), yearOf t = parsed.Year →
        DetermineCorrectTimestamp (some t) parsed = (t, true)) ∧
    (∀ (t : Nat) (parsed : DateInfo), yearOf t ≠ parsed.Year →
        DetermineCorrectTimestamp (some t) parsed = (parsed.ToTime, false)) ∧
    DetermineCorrectTimestamp (some (toSecs 2019 6 5 14 22 10))
        { Year := 2019, Month := 1, Day := 1, Time := "", Original := "" } =
      (toSecs 2019 6 5 14 22 10, true) ∧
    DetermineCorrectTimestamp (some (toSecs 1970 1 1 0 0 0))
        { Year := 1998, Month := 7, Day := 4, Time := "", Original := "" } =
      ((DateInfo.mk 1998 7 4 ("") ("")).ToTime, false) := by
  refine ⟨?_, ?_, ?_, ?_, ?_⟩
  · intro parsed; rfl
  · intro t parsed h
    simp only [DetermineCorrectTimestamp, if_pos h]
  · intro t parsed h
    simp only [DetermineCorrectTimestamp, if_neg h]
  · decide
  · decide

/-- C10: `GetSequentialTimestamp` is total: the stored pre-allocated
timestamp when the path has an entry, the supplied base timestamp
unchanged otherwise. -/
theorem getSequentialTimestamp_total :
    ∀ (assignments : List (String × Nat)) (filePath : String) (baseTimestamp : Nat),
      GetSequentialTimestamp assignments filePath baseTimestamp =
        (lookupAssign assignments filePath).getD baseTimestamp := by
  intro assignments filePath baseTimestamp
  unfold GetSequentialTimestamp
  cases lookupAssign assignments filePath <;> rfl

/-- C9 (the code against the claim): `processPhoto` increments the shared
statistics counters with a bare `++` and without `statsMutex`, while running
on several pool workers; compiled to its load and store halves, two
concurrent increments of `SkippedFiles` admit the interleaving
load-load-store-store that loses one update (final count 1), whereas any
serialized (mutually excluded) execution of the same two increments gives 2. -/
theorem stats_increment_race :
    (runSched [true, false, true, false] raceInit).counter = 1 ∧
    (runSched [true, true, false, false] raceInit).counter = 2 ∧
    (runSched [false, false, true, true] raceInit).counter = 2 := by
  decide

/-- C4: the resolution search order.  Any rule that produces a valid match on
the bare filename without extension settles the result, and the full path is
never consulted; concretely, `2019-03-04/9906_x.jpg` resolves through the
low-priority `YYMM` rule on the filename to 1999-06-01 even though the
higher-priority `YYYY-MM-DD` rule would match `2019-03-04` on the full path
(third conjunct). -/
theorem parseDateFromFilename_filename_first :
    (∀ (f : String) (d : DateInfo),
        tryPatterns (patternRules (String.mk (baseNameL f.data))) (nameNoExtL f) =
          some d →
        ParseDateFromFilename f = some d) ∧
    ParseDateFromFilename ("2019-03-04/9906_x.jpg") =
      some { Year := 1999, Month := 6, Day := 1, Time := "", Original := "9906_x.jpg" } ∧
    tryPatterns (patternRules ("9906_x.jpg")) (("2019-03-04/9906_x.jpg").data) =
      some { Year := 2019, Month := 3, Day := 4, Time := "", Original := "9906_x.jpg" } := by
  refine ⟨?_, ?_, ?_⟩
  · intro f d h
    unfold ParseDateFromFilename
    simp only [searchAll, h]
  · rfl
  · rfl

/-- C5: the resolution postcondition.  Every successfully parsed date
satisfies the year, month and day ranges (first conjunct); an out-of-range
match discards only that rule and the cascade continues with the next rule
(second conjunct) and, when a whole search string yields nothing, with the
next search string (third conjunct). -/
theorem parseDateFromFilename_valid_ranges :
    (∀ (f : String) (d : DateInfo), ParseDateFromFilename f = some d →
        (1800 ≤ d.Year ∧ d.Year ≤ 2100) ∧ (1 ≤ d.Month ∧ d.Month ≤ 12) ∧
          (1 ≤ d.Day ∧ d.Day ≤ 31)) ∧
    (∀ (p : List Char → Option DateInfo) (ps : List (List Char → Option DateInfo))
        (s : List Char) (info : DateInfo),
        p s = some info → validDate info = false →
        tryPatterns (p :: ps) s = tryPatterns ps s) ∧
    (∀ (pats : List (List Char → Option DateInfo)) (s : List Char)
        (rest : List (List Char)),
        tryPatterns pats s = none → searchAll pats (s :: rest) = searchAll pats rest) := by
  refine ⟨?_, ?_, ?_⟩
  · intro f d h
    have hb := validDate_bounds (parse_valid f d h)
    exact ⟨⟨hb.1, hb.2.1⟩, ⟨hb.2.2.1, hb.2.2.2.1⟩, ⟨hb.2.2.2.2.1, hb.2.2.2.2.2⟩⟩
  · intro p ps s info h1 h2
    simp [tryPatterns, h1, h2]
  · intro pats s rest h
    simp [searchAll, h]

/-- C6: filename synthesis.  `StandardizedFilename` is
`YYYY-MM-DD_HHMMSS_description.ext` exactly when a time of day other than the
`12:00:00` midday placeholder is present and `YYYY-MM-DD_description.ext`
otherwise, the directory is always `YYYY/YYYY-MM`, and the input
`20240315_vacation.jpg` is destined for
`2024/2024-03/2024-03-15_vacation.jpg`. -/
theorem standardizedFilename_format :
    (∀ (d : DateInfo) (description ext : String),
        d.StandardizedFilename description ext =
          if d.Time ≠ "" ∧ d.Time ≠ ("12:00:00") then
            padZeros 4 d.Year ++ ("-") ++ padZeros 2 d.Month ++ ("-") ++
              padZeros 2 d.Day ++ ("_") ++
              String.mk (d.Time.data.filter (fun c => c ≠ ':')) ++ ("_") ++
              (if cleanDescription description = "" then ("photo")
               else cleanDescription description) ++ ext
          else
            padZeros 4 d.Year ++ ("-") ++ padZeros 2 d.Month ++ ("-") ++
              padZeros 2 d.Day ++ ("_") ++
              (if cleanDescription description = "" then ("photo")
               else cleanDescription description) ++ ext) ∧
    (∀ (d : DateInfo), d.GetDirectoryPath =
        padZeros 4 d.Year ++ ("/") ++ padZeros 4 d.Year ++ ("-") ++ padZeros 2 d.Month) ∧
    (DateInfo.mk 2024 3 15 ("14:22:10") ("x")).StandardizedFilename ("vacation") (".jpg") =
      ("2024-03-15_142210_vacation.jpg") ∧
    (DateInfo.mk 2024 3 15 ("12:00:00") ("x")).StandardizedFilename ("vacation") (".jpg") =
      ("2024-03-15_vacation.jpg") ∧
    (DateInfo.mk 2024 3 15 ("") ("x")).StandardizedFilename ("vacation") (".jpg") =
      ("2024-03-15_vacation.jpg") ∧
    destRelPath ("20240315_vacation.jpg") = some ("2024/2024-03/2024-03-15_vacation.jpg") := by
  refine ⟨fun d description ext => rfl, fun d => rfl, rfl, rfl, rfl, rfl⟩

/-- C7: the century cutover heuristic of the `YYMMDD` and `YYMM` rules: the
two-digit year `yy` becomes `1900 + yy` when `yy > 50` and `2000 + yy`
otherwise; concretely `990615_beach.jpg` resolves to 1999-06-15. -/
theorem century_cutover_heuristic :
    (∀ (base : String) (cs : List Char) (yy mo dy : Nat) (r1 r2 r3 : List Char),
        takeD 2 cs = some (yy, r1) → takeD 2 r1 = some (mo, r2) →
        takeD 2 r2 = some (dy, r3) → endOrNonDigit r3 = true →
        hitYYMMDD base cs =
          some { Year := if 50 < yy then 1900 + yy else 2000 + yy,
                 Month := mo, Day := dy, Time := "", Original := base }) ∧
    (∀ (base : String) (cs : List Char) (yy mo : Nat) (r1 r2 : List Char),
        takeD 2 cs = some (yy, r1) → takeD 2 r1 = some (mo, r2) →
        endOrNonDigit r2 = true →
        hitYYMM base cs =
          some { Year := if 50 < yy then 1900 + yy else 2000 + yy,
                 Month := mo, Day := 1, Time := "", Original := base }) ∧
    ParseDateFromFilename ("990615_beach.jpg") =
      some { Year := 1999, Month := 6, Day := 15, Time := "",
             Original := "990615_beach.jpg" } := by
  refine ⟨?_, ?_, ?_⟩
  · intro base cs yy mo dy r1 r2 r3 h1 h2 h3 h4
    simp [hitYYMMDD, h1, h2, h3, h4, inferCentury]
  · intro base cs yy mo r1 r2 h1 h2 h3
    simp [hitYYMM, h1, h2, h3, inferCentury]
  · rfl

/-- The collision loop returns its starting candidate when that path is not
taken (any non-zero fuel). -/
theorem findFreeAux_not_mem (existing : List String) (cand : Nat → String)
    (fuel : Nat) (cur : String) (counter : Nat)
    (h : cur ∉ existing) (hf : fuel ≠ 0) :
    findFreeAux existing cand fuel cur counter = cur := by
  cases fuel with
  | zero => exact absurd rfl hf
  | succ n => simp [findFreeAux, h]

/-- C8: unparseable-date routing.  A file whose date resolution fails is
copied to the unknown bucket (base name kept when free), counted as skipped
and not as an error, and `processPhoto` returns success; a second
`photo_final.jpg` becomes `unknown/photo_final_1.jpg`. -/
theorem unparseable_routed_to_unknown :
    (∀ (existing : List String) (destDir p : String),
        ParseDateFromFilename p = none →
        (processPhotoM existing destDir p).retErr = false ∧
        (processPhotoM existing destDir p).skippedDelta = 1 ∧
        (processPhotoM existing destDir p).processedDelta = 0 ∧
        (processPhotoM existing destDir p).dest = routeUnparseable existing destDir p) ∧
    (∀ (existing : List String) (destDir p : String),
        (destDir ++ ("/unknown/") ++ String.mk (baseNameL p.data)) ∉ existing →
        routeUnparseable existing destDir p =
          destDir ++ ("/unknown/") ++ String.mk (baseNameL p.data)) ∧
    routeUnparseable [] ("dest") ("photo_final.jpg") = ("dest/unknown/photo_final.jpg") ∧
    routeUnparseable [("dest/unknown/photo_final.jpg")] ("dest") ("photo_final.jpg") =
      ("dest/unknown/photo_final_1.jpg") ∧
    ParseDateFromFilename ("photo_final.jpg") = none := by
  refine ⟨?_, ?_, ?_, ?_, ?_⟩
  · intro existing destDir p h
    refine ⟨?_, ?_, ?_, ?_⟩ <;> simp [processPhotoM, h]
  · intro existing destDir p h
    unfold routeUnparseable
    exact findFreeAux_not_mem _ _ _ _ _ h (by omega)
  · rfl
  · rfl
  · rfl
